import Mathlib

set_option maxRecDepth 40000
set_option linter.unusedVariables false

/-!
Verification of the LynDJ playback core against its natural-language
specification.  Python strings are embedded as `List Char`, Python floats as
exact rationals (`ℚ`), machine integers as `ℤ` with explicit wrapping where
the code can overflow.  Every definition mirrors one function of the source
(`src/lyndj/...`); the module and line of origin are named in its comment.
-/

namespace LynDJ

/-! ## Python string primitives (`str.split`, `str.join`) on `List Char` -/

/-- Python `s.split(sep)` for a one-character separator `sep`.
`"".split(sep) == [""]`, i.e. the empty string yields one empty part. -/
def mySplitOn (sep : Char) : List Char → List (List Char)
  | [] => [[]]
  | c :: r =>
    if c = sep then [] :: mySplitOn sep r
    else
      match mySplitOn sep r with
      | [] => [[c]]
      | p :: ps => (c :: p) :: ps

/-- Python `sep.join(parts)` for a one-character separator. -/
def myJoin (sep : Char) : List (List Char) → List Char
  | [] => []
  | [p] => p
  | p :: ps => p ++ sep :: myJoin sep ps

theorem mySplitOn_ne_nil (sep : Char) (l : List Char) : mySplitOn sep l ≠ [] := by
  cases l with
  | nil => simp [mySplitOn]
  | cons c r =>
    simp only [mySplitOn]
    by_cases hc : c = sep
    · simp [hc]
    · simp only [if_neg hc]
      cases h : mySplitOn sep r with
      | nil => simp
      | cons p ps => simp

/-- Joining the parts of a split gives the original string back. -/
theorem myJoin_mySplitOn (sep : Char) (l : List Char) :
    myJoin sep (mySplitOn sep l) = l := by
  induction l with
  | nil => rfl
  | cons c r ih =>
    simp only [mySplitOn]
    by_cases hc : c = sep
    · rw [if_pos hc]
      cases h : mySplitOn sep r with
      | nil => exact absurd h (mySplitOn_ne_nil sep r)
      | cons p ps =>
        rw [h] at ih
        subst hc
        simpa [myJoin] using ih
    · rw [if_neg hc]
      cases h : mySplitOn sep r with
      | nil => exact absurd h (mySplitOn_ne_nil sep r)
      | cons p ps =>
        rw [h] at ih
        cases ps with
        | nil => simpa [myJoin] using ih
        | cons q qs => simpa [myJoin] using ih

/-- Splitting a separator-free string gives that string as the only part. -/
theorem mySplitOn_of_not_mem (sep : Char) (p : List Char) (h : sep ∉ p) :
    mySplitOn sep p = [p] := by
  induction p with
  | nil => rfl
  | cons c r ih =>
    simp only [List.mem_cons, not_or] at h
    have hc : ¬c = sep := fun hcc => h.1 hcc.symm
    rw [mySplitOn, if_neg hc, ih h.2]

/-- Splitting after appending a separator and more text splits at that point,
provided the first part is separator-free. -/
theorem mySplitOn_append (sep : Char) (p rest : List Char) (h : sep ∉ p) :
    mySplitOn sep (p ++ sep :: rest) = p :: mySplitOn sep rest := by
  induction p with
  | nil =>
    rw [List.nil_append, mySplitOn, if_pos rfl]
  | cons c r ih =>
    simp only [List.mem_cons, not_or] at h
    have hc : ¬c = sep := fun hcc => h.1 hcc.symm
    rw [List.cons_append, mySplitOn, if_neg hc, ih h.2]

/-! ## Python numeric primitives

Python floats are modelled as exact rationals; `round` is Python 3 rounding
(half to even), numpy float→integer casts truncate toward zero and reduce
out-of-range values modulo the integer width. -/

/-- Python 3 `round(q)`: round half to even (banker's rounding). -/
def pyRound (q : ℚ) : ℤ :=
  if q - ⌊q⌋ = 1 / 2 then (if 2 ∣ ⌊q⌋ then ⌊q⌋ else ⌊q⌋ + 1) else ⌊q + 1 / 2⌋

/-- C-style truncation toward zero, as numpy float→int casts do. -/
def pytrunc (q : ℚ) : ℤ := if 0 ≤ q then ⌊q⌋ else ⌈q⌉

/-- Reduce an integer into the signed 16-bit sample range the way the numpy
`.astype(int16)` cast reduces an out-of-range value: modulo `2^16`. -/
def wrap16 (n : ℤ) : ℤ := (n + 2 ^ 15) % 2 ^ 16 - 2 ^ 15

/-- Rounding moves a value by at most one half. -/
theorem abs_pyRound_sub_le (q : ℚ) : |(pyRound q : ℚ) - q| ≤ 1 / 2 := by
  unfold pyRound
  have hfl : (⌊q⌋ : ℚ) ≤ q := Int.floor_le _
  split
  case isTrue h =>
    have hq : q = (⌊q⌋ : ℚ) + 1 / 2 := by linarith
    split
    · rw [abs_le]; constructor <;> linarith
    · rw [abs_le]; push_cast; constructor <;> linarith
  case isFalse h =>
    have h1 : (⌊q + 1 / 2⌋ : ℚ) ≤ q + 1 / 2 := Int.floor_le _
    have h2 : q + 1 / 2 - 1 < (⌊q + 1 / 2⌋ : ℚ) := Int.sub_one_lt_floor _
    rw [abs_le]
    constructor <;> linarith

/-! ## Python float literals

`float(s)` and `str(x)`, restricted to the plain (non-exponent-output,
non-inf/nan, no underscore) regime that waypoint strings live in.  Parsing
accepts optional surrounding whitespace, an optional sign, decimal digits
with an optional fractional part (at least one digit in total, `"1."` and
`".5"` are accepted as in Python) and an optional `e`/`E` exponent.
Printing renders the shortest plain decimal form with at least one
fractional digit, which is what Python's `str` produces for floats parsed
from short decimals (Python switches to exponent display below 1e-4 and at
1e16 and above; the waypoint values treated here stay inside that range). -/

/-- The numeric value of a (most-significant-first) list of decimal digits. -/
def digitsToNat (ds : List Char) : ℕ :=
  ds.foldl (fun a c => 10 * a + (c.toNat - 48)) 0

/-- Parse the optional exponent tail of a float literal: empty, or
`e`/`E`, an optional sign and at least one digit. -/
def pyParseExp (s : List Char) : Option ℤ :=
  match s with
  | [] => some 0
  | c :: r =>
    if c = 'e' ∨ c = 'E' then
      let (neg, r2) : Bool × List Char :=
        match r with
        | '+' :: r2 => (false, r2)
        | '-' :: r2 => (true, r2)
        | _ => (false, r)
      let ds := r2.takeWhile Char.isDigit
      if ds = [] ∨ r2.dropWhile Char.isDigit ≠ [] then none
      else some (if neg then -(digitsToNat ds : ℤ) else (digitsToNat ds : ℤ))
    else none

/-- Parse an unsigned float literal body: digits, optional point and more
digits, optional exponent. -/
def pyParseBody (s : List Char) : Option ℚ :=
  let ip := s.takeWhile Char.isDigit
  let rest := s.dropWhile Char.isDigit
  let (fp, rest2) : List Char × List Char :=
    match rest with
    | '.' :: r2 => (r2.takeWhile Char.isDigit, r2.dropWhile Char.isDigit)
    | _ => ([], rest)
  if ip = [] ∧ fp = [] then none
  else
    match pyParseExp rest2 with
    | none => none
    | some e =>
      let base : ℚ := (digitsToNat ip : ℚ) + (digitsToNat fp : ℚ) / 10 ^ fp.length
      some (if 0 ≤ e then base * 10 ^ e.toNat else base / 10 ^ (-e).toNat)

/-- Python `float(s)` on the decimal sublanguage described above. -/
def pyParseFloat (s : List Char) : Option ℚ :=
  let t := (((s.dropWhile Char.isWhitespace).reverse).dropWhile
    Char.isWhitespace).reverse
  match t with
  | '+' :: r => pyParseBody r
  | '-' :: r => (pyParseBody r).map Neg.neg
  | _ => pyParseBody t

/-- Python `str(x)` for a nonnegative float in the plain display regime:
scale by the least power of ten that clears the denominator, then place the
decimal point; integers get a trailing `.0`. -/
def pyStrNonneg (q : ℚ) : List Char :=
  match (List.range 41).find? (fun e => (q * 10 ^ e).den = 1) with
  | none => ['?']
  | some e =>
    let n := (q * 10 ^ e).num.toNat
    let ds := Nat.toDigits 10 n
    if e = 0 then ds ++ ['.', '0']
    else
      let ip := if ds.length ≤ e then ['0'] else ds.take (ds.length - e)
      let fp := List.replicate (e - ds.length) '0' ++ ds.drop (ds.length - e)
      ip ++ '.' :: fp

/-- Python `str(x)` of a float value (plain display regime). -/
def pyStrFloat (q : ℚ) : List Char :=
  if q < 0 then '-' :: pyStrNonneg (-q) else pyStrNonneg q

example : pyParseFloat (String.toList "10") = some 10 := by with_unfolding_all decide
example : pyParseFloat (String.toList "0.2") = some (1 / 5) := by with_unfolding_all decide
example : pyParseFloat (String.toList "-1.5e1") = some (-15) := by with_unfolding_all decide
example : pyParseFloat (String.toList " .5 ") = some (1 / 2) := by with_unfolding_all decide
example : pyParseFloat (String.toList "1.") = some 1 := by with_unfolding_all decide
example : pyParseFloat (String.toList "") = none := by with_unfolding_all decide
example : pyParseFloat (String.toList "1.2.3") = none := by with_unfolding_all decide
example : pyParseFloat (String.toList "abc") = none := by with_unfolding_all decide
example : pyStrFloat 10 = String.toList "10.0" := by with_unfolding_all decide
example : pyStrFloat (1 / 5) = String.toList "0.2" := by with_unfolding_all decide
example : pyStrFloat (-1 / 20) = String.toList "-0.05" := by with_unfolding_all decide
example : pyStrFloat 0 = String.toList "0.0" := by with_unfolding_all decide

/-! ## Sound (src/lyndj/sound.py) -/

/-- `Sound.__init__` (sound.py:66-75): per-channel integer sample arrays
plus a frame rate in Hz.  Sample values are the integers of the channel
dtype; the gain theorems below take the common 16-bit signed encoding. -/
structure Sound where
  channels : List (List ℤ)
  frame_rate : ℕ

/-- Python list slicing `l[i:j]` for integer bounds that are already
nonnegative (as produced by `__getitem__` after clamping): out-of-range
bounds saturate, an empty range gives the empty list. -/
def pySlice {α : Type} (l : List α) (i j : ℤ) : List α :=
  (l.drop i.toNat).take (j.toNat - i.toNat)

/-- `Sound.duration` (sound.py:117-122): `len(self.channels[0]) / self.frame_rate`. -/
def Sound.duration (s : Sound) : ℚ :=
  ((s.channels.headD []).length : ℚ) / s.frame_rate

/-- `Sound.__getitem__` (sound.py:77-115) applied to a slice `[a:b]` of two
float bounds.  `if index.start:`/`if index.stop:` are Python truthiness
tests, so a bound equal to `0.0` is treated as absent and replaced by the
default (start `0.0`, stop the full duration).  Negative bounds count from
the end of the sound; both bounds are then clamped to `[0, duration]`,
scaled by the frame rate, rounded, and used to slice every channel. -/
def Sound.getitemSlice (s : Sound) (a b : ℚ) : Sound :=
  let dur := s.duration
  let start0 : ℚ := if a = 0 then 0 else a
  let end0 : ℚ := if b = 0 then dur else b
  let start1 := if start0 < 0 then start0 + dur else start0
  let end1 := if end0 < 0 then end0 + dur else end0
  let start2 := max 0 (min dur start1)
  let end2 := max 0 (min dur end1)
  let startIdx := pyRound (start2 * s.frame_rate)
  let endIdx := pyRound (end2 * s.frame_rate)
  { channels := s.channels.map (fun c => pySlice c startIdx endIdx),
    frame_rate := s.frame_rate }

/-- The bound normalisation performed by `__getitem__` (sound.py:103-110),
which is also the `clamp` the specification speaks of: negative values
count from the end, then the result is clamped to `[0, duration]`. -/
def Sound.clampBound (s : Sound) (x : ℚ) : ℚ :=
  max 0 (min s.duration (if x < 0 then x + s.duration else x))

/-- `Sound.rms` (sound.py:124-136): `int(math.sqrt(sum_squares / num_samples))`.
For integer sums this equals `Nat.sqrt` of the floor of the mean square
(`⌊√⌊x⌋⌋ = ⌊√x⌋` for `x ≥ 0`).  Python raises `ZeroDivisionError` on a
sound with no samples; the model returns `0` there (the silence scans only
compare the RMS of slices against a positive threshold, and the theorems
below quantify over the comparisons, so the choice is irrelevant). -/
def Sound.rms (s : Sound) : ℕ :=
  let sumSquares := (s.channels.map (fun c => (c.map (fun x => x * x)).sum)).sum
  let numSamples := (s.channels.map List.length).sum
  Nat.sqrt (sumSquares.toNat / numSamples)

/-- Forward scan of `Sound.detect_silence` (sound.py:163-169): step in
10ms slices from the start until a slice is louder than the threshold or
the end of the sound is passed.  `fuel` bounds the number of steps (the
Python `while` loop always terminates because `start_trim` grows). -/
def detectSilenceFwd (s : Sound) (tv : ℚ) : ℕ → ℚ → ℚ
  | 0, t => t
  | fuel + 1, t =>
    if t < s.duration then
      if ((s.getitemSlice t (t + 1 / 100)).rms : ℚ) > tv then t
      else detectSilenceFwd s tv fuel (t + 1 / 100)
    else t

/-- Backward scan of `Sound.detect_silence` (sound.py:170-176): step in
10ms slices from the end until a slice is louder than the threshold or the
start of the sound is passed. -/
def detectSilenceBwd (s : Sound) (tv : ℚ) : ℕ → ℚ → ℚ
  | 0, t => t
  | fuel + 1, t =>
    if t > 0 then
      if ((s.getitemSlice t (t + 1 / 100)).rms : ℚ) > tv then t
      else detectSilenceBwd s tv fuel (t - 1 / 100)
    else t

/-- `Sound.detect_silence` (sound.py:152-179).  The decibel threshold
parameter only enters through the positive linear amplitude
`threshold_value = 10^(threshold/20) * 2^(bits-1)` computed on lines
159-160 (irrational for the default -64 dB), so the model takes that
linear value `tv` as its parameter.  The fuel is large enough for both
scans to run to their loop conditions. -/
def Sound.detectSilence (s : Sound) (tv : ℚ) : ℚ × ℚ :=
  let fuel := (⌈s.duration⌉.toNat + 1) * 100 + 1
  (detectSilenceFwd s tv fuel 0, detectSilenceBwd s tv fuel (s.duration - 1 / 100))

/-- `Sound.__mul__` (sound.py:204-211), the spec's `gain(factor)`, for
16-bit signed samples: `(channel * volume).astype(channel.dtype)`
multiplies each sample by the factor in float arithmetic and casts back,
which truncates toward zero and reduces out-of-range results modulo `2^16`
instead of clamping them. -/
def Sound.gain (s : Sound) (volume : ℚ) : Sound :=
  { channels := s.channels.map (fun c => c.map (fun x => wrap16 (pytrunc (x * volume)))),
    frame_rate := s.frame_rate }

/-! ## Helper lemmas about the sound model -/

/-- Slicing an all-zero channel yields an all-zero channel, whose RMS is 0. -/
theorem rms_slice_zero (n fr : ℕ) (a b : ℚ) :
    ((Sound.mk [List.replicate n 0] fr).getitemSlice a b).rms = 0 := by
  unfold Sound.getitemSlice Sound.rms pySlice
  simp [List.drop_replicate, List.take_replicate, List.map_replicate,
    List.sum_replicate]

theorem pyRound_nonneg (q : ℚ) (h : 0 ≤ q) : 0 ≤ pyRound q := by
  have habs := abs_pyRound_sub_le q
  rw [abs_le] at habs
  by_contra hneg
  push_neg at hneg
  have h1 : pyRound q ≤ -1 := by omega
  have h2 : (pyRound q : ℚ) ≤ -1 := by exact_mod_cast h1
  linarith [habs.1]

theorem pyRound_intCast (n : ℤ) : pyRound (n : ℚ) = n := by
  unfold pyRound
  rw [Int.floor_intCast]
  rw [if_neg (by norm_num)]
  rw [Int.floor_eq_iff]
  constructor
  · linarith
  · linarith

/-- If no 10ms slice is louder than the threshold, the forward scan runs
to (or past) the end of the sound. -/
theorem detectSilenceFwd_ge (s : Sound) (tv : ℚ)
    (h : ∀ t : ℚ, ((s.getitemSlice t (t + 1 / 100)).rms : ℚ) ≤ tv) :
    ∀ (fuel : ℕ) (t : ℚ), (s.duration - t) * 100 ≤ fuel →
      s.duration ≤ detectSilenceFwd s tv fuel t := by
  intro fuel
  induction fuel with
  | zero =>
    intro t ht
    unfold detectSilenceFwd
    push_cast at ht
    linarith
  | succ fuel ih =>
    intro t ht
    unfold detectSilenceFwd
    by_cases hlt : t < s.duration
    · rw [if_pos hlt, if_neg (not_lt.mpr (h t))]
      apply ih
      push_cast at ht
      linarith
    · rw [if_neg hlt]
      exact not_lt.mp hlt

/-- If no 10ms slice is louder than the threshold, the backward scan runs
to (or past) the start of the sound. -/
theorem detectSilenceBwd_le (s : Sound) (tv : ℚ)
    (h : ∀ t : ℚ, ((s.getitemSlice t (t + 1 / 100)).rms : ℚ) ≤ tv) :
    ∀ (fuel : ℕ) (t : ℚ), t * 100 ≤ fuel →
      detectSilenceBwd s tv fuel t ≤ 0 := by
  intro fuel
  induction fuel with
  | zero =>
    intro t ht
    unfold detectSilenceBwd
    push_cast at ht
    linarith
  | succ fuel ih =>
    intro t ht
    unfold detectSilenceBwd
    by_cases hlt : t > 0
    · rw [if_pos hlt, if_neg (not_lt.mpr (h t))]
      apply ih
      push_cast at ht
      linarith
    · rw [if_neg hlt]
      exact not_lt.mp hlt

/-- C1 (amended): on a buffer in which no 10ms slice has RMS above the
silence threshold, `detect_silence` does not special-case anything: the
forward scan runs past the end and the backward scan past the start, so it
returns the inverted pair `(start_trim ≥ duration, end_trim ≤ 0)` with
`end_trim < start_trim` whenever the buffer is nonempty. -/
theorem c1_detect_silence_inverted (s : Sound) (tv : ℚ)
    (h : ∀ t : ℚ, ((s.getitemSlice t (t + 1 / 100)).rms : ℚ) ≤ tv)
    (hd : 0 < s.duration) :
    s.duration ≤ (s.detectSilence tv).1 ∧ (s.detectSilence tv).2 ≤ 0 ∧
      (s.detectSilence tv).2 < (s.detectSilence tv).1 := by
  have hceil : s.duration ≤ ((⌈s.duration⌉.toNat : ℚ)) := by
    have h1 := Int.le_ceil s.duration
    have h2 : ((⌈s.duration⌉ : ℤ) : ℚ) ≤ ((⌈s.duration⌉.toNat : ℚ)) := by
      exact_mod_cast Int.self_le_toNat _
    linarith
  have hfuel : (s.duration - 0) * 100 ≤ (((⌈s.duration⌉.toNat + 1) * 100 + 1 : ℕ) : ℚ) := by
    push_cast
    linarith
  have hfuel2 : (s.duration - 1 / 100) * 100 ≤ (((⌈s.duration⌉.toNat + 1) * 100 + 1 : ℕ) : ℚ) := by
    push_cast
    linarith
  have hfwd := detectSilenceFwd_ge s tv h ((⌈s.duration⌉.toNat + 1) * 100 + 1) 0 hfuel
  have hbwd := detectSilenceBwd_le s tv h ((⌈s.duration⌉.toNat + 1) * 100 + 1)
    (s.duration - 1 / 100) hfuel2
  unfold Sound.detectSilence
  refine ⟨hfwd, hbwd, ?_⟩
  calc detectSilenceBwd s tv ((⌈s.duration⌉.toNat + 1) * 100 + 1) (s.duration - 1 / 100)
      ≤ 0 := hbwd
    _ < s.duration := hd
    _ ≤ detectSilenceFwd s tv ((⌈s.duration⌉.toNat + 1) * 100 + 1) 0 := hfwd

/-- C1 witness: the amended statement applied to a concrete all-zero
buffer (5 zero samples at 100 Hz, i.e. 0.05s of silence) with linear
threshold 1. -/
theorem c1_detect_silence_inverted_witness :
    (0 : ℚ) < (Sound.mk [List.replicate 5 0] 100).duration ∧
    ((Sound.mk [List.replicate 5 0] 100).detectSilence 1).2 <
      ((Sound.mk [List.replicate 5 0] 100).detectSilence 1).1 := by
  refine ⟨by with_unfolding_all decide, ?_⟩
  exact (c1_detect_silence_inverted (Sound.mk [List.replicate 5 0] 100) 1
    (fun t => by rw [rms_slice_zero]; norm_num)
    (by with_unfolding_all decide)).2.2

/-- C1 counterexample: the claim as stated is false.  The all-zero buffer
of 5 samples at 100 Hz has every 10ms slice the scans look at below the
threshold (a decidable finite check standing in for the claim's premise,
which holds for every slice of an all-zero buffer), yet `detect_silence`
returns `(0.05, 0)` with `start_trim > end_trim`: the inverted scan result
is returned, not special-cased to a non-inverted fallback. -/
theorem c1_counterexample :
    ((List.range 6).all (fun k =>
      decide ((((Sound.mk [List.replicate 5 0] 100).getitemSlice
        ((k : ℚ) / 100) ((k : ℚ) / 100 + 1 / 100)).rms : ℚ) ≤ 1))) = true ∧
    ¬ ((Sound.mk [List.replicate 5 0] 100).detectSilence 1).1 ≤
      ((Sound.mk [List.replicate 5 0] 100).detectSilence 1).2 := by
  constructor
  · with_unfolding_all decide
  · with_unfolding_all decide

/-- C2: `gain` does not clamp.  At the failing input (a 16-bit sample
30000 and gain factor 2) the code wraps the product 60000 around to
-5536, while clamping to the valid 16-bit range would give 32767. -/
theorem c2_gain_wraps_at_failing_input :
    (Sound.gain ⟨[[30000]], 44100⟩ 2).channels = [[-5536]] ∧
    max (-(2 ^ 15) : ℤ) (min (2 ^ 15 - 1) (30000 * 2)) = 32767 ∧
    ((-5536 : ℤ) ≠ 32767) := by
  exact ⟨by with_unfolding_all decide, by decide, by decide⟩

/-- With a truthy (nonzero) stop bound, `__getitem__` slices every channel
between the rounded, frame-scaled clamped bounds. -/
theorem getitemSlice_eq (s : Sound) (a b : ℚ) (hb : b ≠ 0) :
    s.getitemSlice a b =
      ⟨s.channels.map (fun c => pySlice c (pyRound (s.clampBound a * s.frame_rate))
        (pyRound (s.clampBound b * s.frame_rate))), s.frame_rate⟩ := by
  unfold Sound.getitemSlice Sound.clampBound
  have ha : (if a = 0 then (0 : ℚ) else a) = a := by
    split
    · simp_all
    · rfl
  simp only [ha, if_neg hb]

/-- Length of a Python slice with ordered in-range bounds. -/
theorem pySlice_length {α : Type} (l : List α) (i j : ℤ) (hi : 0 ≤ i)
    (hij : i ≤ j) (hj : j ≤ l.length) :
    ((pySlice l i j).length : ℤ) = j - i := by
  unfold pySlice
  rw [List.length_take, List.length_drop]
  omega

/-- C7 (amended): for a sound with at least one channel and a positive
frame rate, and bounds whose clamped values are ordered (`clamp(a) ≤
clamp(b)`) with `b` nonzero (a zero stop bound is falsy in Python and is
replaced by the full duration), the duration of `slice(a,b)` equals
`clamp(b) - clamp(a)` to within one sample period. -/
theorem c7_slice_duration (s : Sound) (a b : ℚ) (hch : s.channels ≠ [])
    (hfr : 0 < s.frame_rate) (hb : b ≠ 0)
    (hord : s.clampBound a ≤ s.clampBound b) :
    |(s.getitemSlice a b).duration - (s.clampBound b - s.clampBound a)| ≤
      1 / s.frame_rate := by
  obtain ⟨c, cs, hc⟩ := List.exists_cons_of_ne_nil hch
  have hfq0 : (0 : ℚ) < (s.frame_rate : ℚ) := by exact_mod_cast hfr
  set f : ℚ := (s.frame_rate : ℚ) with hf
  have hfq : (0 : ℚ) < f := hfq0
  set ca := s.clampBound a with hca
  set cb := s.clampBound b with hcb
  set i := pyRound (ca * f) with hi
  set j := pyRound (cb * f) with hj
  set n := c.length with hn
  have hdur : s.duration = (n : ℚ) / f := by
    unfold Sound.duration
    rw [hc]
    rfl
  have hd0 : (0 : ℚ) ≤ s.duration := by
    rw [hdur]
    positivity
  have hca0 : 0 ≤ ca := le_max_left _ _
  have hcb0 : 0 ≤ cb := le_max_left _ _
  have hcad : ca ≤ s.duration := by
    rw [hca]
    unfold Sound.clampBound
    exact max_le hd0 (min_le_left _ _)
  have hcbd : cb ≤ s.duration := by
    rw [hcb]
    unfold Sound.clampBound
    exact max_le hd0 (min_le_left _ _)
  have hiq := abs_pyRound_sub_le (ca * f)
  have hjq := abs_pyRound_sub_le (cb * f)
  rw [abs_le] at hiq hjq
  rw [← hi] at hiq
  rw [← hj] at hjq
  have hi0 : 0 ≤ i := pyRound_nonneg _ (mul_nonneg hca0 hfq.le)
  have hij : i ≤ j := by
    rcases eq_or_lt_of_le hord with heq | hlt
    · rw [hi, hj, ← heq]
    · have hmul : ca * f < cb * f := mul_lt_mul_of_pos_right hlt hfq
      have hr : (i : ℚ) < (j : ℚ) + 1 := by linarith [hiq.2, hjq.1]
      have hint : i < j + 1 := by exact_mod_cast hr
      omega
  have hjn : j ≤ (n : ℤ) := by
    have hcbn : cb * f ≤ (n : ℚ) := by
      rw [hdur] at hcbd
      calc cb * f ≤ ((n : ℚ) / f) * f := mul_le_mul_of_nonneg_right hcbd hfq.le
        _ = (n : ℚ) := by field_simp
    have hr : (j : ℚ) < (n : ℚ) + 1 := by linarith [hjq.2]
    have hint : j < (n : ℤ) + 1 := by exact_mod_cast hr
    omega
  have hlen : ((pySlice c i j).length : ℤ) = j - i := by
    apply pySlice_length c i j hi0 hij
    omega
  have hsd : (s.getitemSlice a b).duration = ((j : ℚ) - (i : ℚ)) / f := by
    rw [getitemSlice_eq s a b hb]
    unfold Sound.duration
    rw [hc]
    simp only [List.map_cons, List.headD_cons]
    rw [← hca, ← hcb, ← hf, ← hi, ← hj]
    congr 1
    exact_mod_cast hlen
  rw [hsd]
  have hkey : ((j : ℚ) - (i : ℚ)) / f - (cb - ca) =
      (((j : ℚ) - cb * f) - ((i : ℚ) - ca * f)) / f := by
    field_simp
    ring
  rw [hkey, abs_div, abs_of_pos hfq]
  rw [div_le_div_iff₀ hfq hfq]
  have habs : |((j : ℚ) - cb * f) - ((i : ℚ) - ca * f)| ≤ 1 := by
    rw [abs_le]
    constructor
    · linarith [hiq.2, hjq.1]
    · linarith [hiq.1, hjq.2]
  nlinarith [habs, hfq]

/-- C7 witness: the amended statement applied to a 10-second all-zero
buffer at 10 Hz with bounds a = 2, b = 3. -/
theorem c7_slice_duration_witness :
    (Sound.mk [List.replicate 100 0] 10).channels ≠ [] ∧
    0 < (Sound.mk [List.replicate 100 0] 10).frame_rate ∧
    (3 : ℚ) ≠ 0 ∧
    (Sound.mk [List.replicate 100 0] 10).clampBound 2 ≤
      (Sound.mk [List.replicate 100 0] 10).clampBound 3 ∧
    |((Sound.mk [List.replicate 100 0] 10).getitemSlice 2 3).duration -
        ((Sound.mk [List.replicate 100 0] 10).clampBound 3 -
          (Sound.mk [List.replicate 100 0] 10).clampBound 2)| ≤
      1 / ((Sound.mk [List.replicate 100 0] 10).frame_rate : ℚ) := by
  refine ⟨by decide, by decide, by norm_num, by with_unfolding_all decide, ?_⟩
  exact c7_slice_duration (Sound.mk [List.replicate 100 0] 10) 2 3
    (by decide) (by decide) (by norm_num) (by with_unfolding_all decide)

/-- C7 counterexample: the claim as stated (for every pair of bounds) is
false.  On a 10-second buffer, `slice(2, 1)` is empty (duration 0), while
`clamp(1) - clamp(2) = -1`, so the difference is a full second, far more
than one sample period (0.1s). -/
theorem c7_counterexample :
    ¬ |((Sound.mk [List.replicate 100 0] 10).getitemSlice 2 1).duration -
        ((Sound.mk [List.replicate 100 0] 10).clampBound 1 -
          (Sound.mk [List.replicate 100 0] 10).clampBound 2)| ≤
      1 / ((Sound.mk [List.replicate 100 0] 10).frame_rate : ℚ) := by
  with_unfolding_all decide

/-! ## Waypoints (src/lyndj/waypoints_timeline.py) -/

/-- The body of the `for waypoint_str in waypoints_list` loop of
`WaypointsTimeline.parse_waypoints` (waypoints_timeline.py:86-97): split
each entry on `;`; unless exactly two parts remain, log and skip; parse
both parts as floats, skipping the entry if either raises `ValueError`;
otherwise append the `(timestamp, level)` pair to the result being
accumulated. -/
def parseWaypointsLoop : List (List Char) → List (ℚ × ℚ) → List (ℚ × ℚ)
  | [], result => result
  | e :: rest, result =>
    let parts := mySplitOn ';' e
    if parts.length ≠ 2 then parseWaypointsLoop rest result
    else
      match pyParseFloat (parts.headD []), pyParseFloat (parts.getD 1 []) with
      | some timestamp, some level =>
        parseWaypointsLoop rest (result ++ [(timestamp, level)])
      | _, _ => parseWaypointsLoop rest result

/-- `WaypointsTimeline.parse_waypoints` (waypoints_timeline.py:64-98):
the empty string is special-cased to the empty list, any other string is
split on `|` and each entry run through the loop above. -/
def parse_waypoints (s : List Char) : List (ℚ × ℚ) :=
  if s = [] then [] else parseWaypointsLoop (mySplitOn '|' s) []

/-- `WaypointsTimeline.serialise_waypoints` (waypoints_timeline.py:100-109):
`"|".join(";".join(str(part) for part in waypoint) for ...)`. -/
def serialise_waypoints (w : List (ℚ × ℚ)) : List Char :=
  myJoin '|' (w.map (fun p => pyStrFloat p.1 ++ ';' :: pyStrFloat p.2))

/-- One entry of the waypoint grammar as the specification describes it:
exactly two `;`-separated parts, both parsable as floats. -/
def parseEntrySpec (e : List Char) : Option (ℚ × ℚ) :=
  match mySplitOn ';' e with
  | [p1, p2] =>
    match pyParseFloat p1, pyParseFloat p2 with
    | some t, some l => some (t, l)
    | _, _ => none
  | _ => none

/-- The accumulating loop computes exactly the well-formed entries, in
order, appended to the accumulator. -/
theorem parseWaypointsLoop_eq_filterMap (es : List (List Char)) :
    ∀ acc, parseWaypointsLoop es acc = acc ++ es.filterMap parseEntrySpec := by
  induction es with
  | nil =>
    intro acc
    simp [parseWaypointsLoop]
  | cons e rest ih =>
    intro acc
    rw [List.filterMap_cons]
    unfold parseWaypointsLoop
    cases h : mySplitOn ';' e with
    | nil =>
      have hspec : parseEntrySpec e = none := by
        unfold parseEntrySpec
        rw [h]
      rw [hspec]
      simp [h, ih]
    | cons p1 ps =>
      cases ps with
      | nil =>
        have hspec : parseEntrySpec e = none := by
          unfold parseEntrySpec
          rw [h]
        rw [hspec]
        simp [h, ih]
      | cons p2 ps2 =>
        cases ps2 with
        | nil =>
          cases hp1 : pyParseFloat p1 with
          | none =>
            have hspec : parseEntrySpec e = none := by
              unfold parseEntrySpec
              rw [h]
              simp [hp1]
            rw [hspec]
            simp [h, hp1, ih]
          | some t =>
            cases hp2 : pyParseFloat p2 with
            | none =>
              have hspec : parseEntrySpec e = none := by
                unfold parseEntrySpec
                rw [h]
                simp [hp1, hp2]
              rw [hspec]
              simp [h, hp1, hp2, ih]
            | some l =>
              have hspec : parseEntrySpec e = some (t, l) := by
                unfold parseEntrySpec
                rw [h]
                simp [hp1, hp2]
              rw [hspec]
              simp [h, hp1, hp2, ih]
        | cons p3 ps3 =>
          have hspec : parseEntrySpec e = none := by
            unfold parseEntrySpec
            rw [h]
          rw [hspec]
          simp [h, ih]

/-- `parse_waypoints` as a filter over the split entries; the empty-string
special case agrees with the filter since the empty string's single empty
entry is malformed and dropped. -/
theorem parse_waypoints_eq_filterMap (s : List Char) :
    parse_waypoints s = (mySplitOn '|' s).filterMap parseEntrySpec := by
  unfold parse_waypoints
  split
  case isTrue h =>
    subst h
    with_unfolding_all decide
  case isFalse h =>
    exact (parseWaypointsLoop_eq_filterMap (mySplitOn '|' s) []).trans (by simp)

/-- C10: `parse_waypoints` is total (it is a function of the whole input,
never raising) and returns, in input order, exactly those `|`-separated
entries that consist of two `;`-separated float-parsable parts, silently
skipping every malformed entry. -/
theorem c10_parse_waypoints_total_filter (s : List Char) :
    parse_waypoints s = (mySplitOn '|' s).filterMap parseEntrySpec :=
  parse_waypoints_eq_filterMap s

/-- Under the canonical-format hypothesis, serialising the parsed entries
reproduces each entry literally. -/
theorem serialise_entries_of_canonical (es : List (List Char))
    (h : ∀ e ∈ es, ∃ t l : ℚ,
      mySplitOn ';' e = [pyStrFloat t, pyStrFloat l] ∧
      pyParseFloat (pyStrFloat t) = some t ∧ pyParseFloat (pyStrFloat l) = some l) :
    (es.filterMap parseEntrySpec).map
      (fun p => pyStrFloat p.1 ++ ';' :: pyStrFloat p.2) = es := by
  induction es with
  | nil => rfl
  | cons e rest ih =>
    obtain ⟨t, l, he, hpt, hpl⟩ := h e (List.mem_cons_self e rest)
    have hee : parseEntrySpec e = some (t, l) := by
      unfold parseEntrySpec
      rw [he]
      simp [hpt, hpl]
    have hjoin : e = pyStrFloat t ++ ';' :: pyStrFloat l := by
      have h1 := myJoin_mySplitOn ';' e
      rw [he] at h1
      simpa [myJoin] using h1.symm
    rw [List.filterMap_cons, hee]
    simp only [List.map_cons]
    rw [ih (fun x hx => h x (List.mem_cons_of_mem e hx)), ← hjoin]

/-- Adjacent timestamps strictly ascend. -/
def strictlyAscendingB : List (ℚ × ℚ) → Bool
  | [] => true
  | [_] => true
  | p :: q :: r => decide (p.1 < q.1) && strictlyAscendingB (q :: r)

/-- The claim's notion of a well-formed waypoint string: every
`|`-separated entry has two `;`-separated float-parsable parts, the parsed
timestamps are strictly ascending and the levels lie in [0,1]. -/
def specWellFormedWaypointString (s : List Char) : Prop :=
  (∀ e ∈ mySplitOn '|' s, parseEntrySpec e ≠ none) ∧
  strictlyAscendingB ((mySplitOn '|' s).filterMap parseEntrySpec) = true ∧
  (∀ p ∈ (mySplitOn '|' s).filterMap parseEntrySpec, 0 ≤ p.2 ∧ p.2 ≤ 1)

/-- C3 counterexample: the round trip fails on the well-formed string
`"10;0.2"`; parsing yields the float 10.0, and Python's `str` prints it
back as `"10.0"`, so serialising returns `"10.0;0.2" ≠ "10;0.2"`. -/
theorem c3_counterexample :
    specWellFormedWaypointString (String.toList "10;0.2") ∧
    serialise_waypoints (parse_waypoints (String.toList "10;0.2")) ≠
      String.toList "10;0.2" ∧
    serialise_waypoints (parse_waypoints (String.toList "10;0.2")) =
      String.toList "10.0;0.2" := by
  refine ⟨⟨?_, ?_, ?_⟩, ?_, ?_⟩ <;> with_unfolding_all decide

/-- C3 (amended): `serialise(parse(s)) = s` holds for well-formed waypoint
strings whose numeric parts are each written in Python's canonical
`str(float)` form (e.g. `"10.0;0.2|20.0;0.8"`); for other well-formed
strings such as `"10;0.2"` the values survive but the spelling changes. -/
theorem c3_roundtrip_canonical (s : List Char)
    (h : ∀ e ∈ mySplitOn '|' s, ∃ t l : ℚ,
      mySplitOn ';' e = [pyStrFloat t, pyStrFloat l] ∧
      pyParseFloat (pyStrFloat t) = some t ∧ pyParseFloat (pyStrFloat l) = some l)
    (_hwf : specWellFormedWaypointString s) :
    serialise_waypoints (parse_waypoints s) = s := by
  unfold serialise_waypoints
  rw [parse_waypoints_eq_filterMap]
  rw [serialise_entries_of_canonical (mySplitOn '|' s) h]
  exact myJoin_mySplitOn '|' s

/-- C3 witness: the amended round trip at the canonical-form string
`"10.0;0.2|20.0;0.8"`. -/
theorem c3_roundtrip_canonical_witness :
    serialise_waypoints (parse_waypoints (String.toList "10.0;0.2|20.0;0.8")) =
      String.toList "10.0;0.2|20.0;0.8" := by
  apply c3_roundtrip_canonical
  · intro e he
    have hsplit : mySplitOn '|' (String.toList "10.0;0.2|20.0;0.8") =
        [String.toList "10.0;0.2", String.toList "20.0;0.8"] := by
      with_unfolding_all decide
    rw [hsplit] at he
    simp only [List.mem_cons, List.not_mem_nil, or_false] at he
    rcases he with he | he
    · subst he
      exact ⟨10, 1 / 5, by with_unfolding_all decide,
        by with_unfolding_all decide, by with_unfolding_all decide⟩
    · subst he
      exact ⟨20, 4 / 5, by with_unfolding_all decide,
        by with_unfolding_all decide, by with_unfolding_all decide⟩
  · refine ⟨?_, ?_, ?_⟩ <;> with_unfolding_all decide

/-! ## Music control (src/lyndj/music_control.py) -/

/-- The per-sample volume computation of
`MusicControl.recalculate_volume_waypoints` (music_control.py:94-101):
flat when the two waypoints share a level, otherwise linear interpolation
`level_start + ratio * (level_end - level_start)`. -/
def interpolateVolume (w1 w2 : ℚ × ℚ) (t : ℚ) : ℚ :=
  if w1.2 = w2.2 then w1.2
  else w1.2 + (t - w1.1) / (w2.1 - w1.1) * (w2.2 - w1.2)

/-- The initial waypoint cursor of `recalculate_volume_waypoints`
(music_control.py:79-82): `pos = -1`, advanced past every leading waypoint
whose timestamp is below the current position. -/
def initialPos (wp : List (ℚ × ℚ)) (cur : ℚ) : ℤ :=
  ((wp.takeWhile (fun w => decide (w.1 < cur))).length : ℤ) - 1

/-- Enough fuel for the 50ms-stepped loop from `cur + 0.025` to `dur`. -/
def recalcFuel (cur dur : ℚ) : ℕ := ⌈(dur - cur) * 20⌉.toNat + 2

/-- The `while t < duration` loop of `recalculate_volume_waypoints`
(music_control.py:86-110), returning in order the `(trigger time, volume)`
pairs for which a volume-change timer is created: advance the cursor when
the sample time passes the next waypoint (once per sample), stop at the
last waypoint, skip samples before the first waypoint, interpolate, and
create a timer only when there is a previously computed volume and the new
volume differs from it. -/
def recalcLoop (wp : List (ℚ × ℚ)) (dur : ℚ) :
    ℕ → ℚ → ℤ → Option ℚ → List (ℚ × ℚ)
  | 0, _, _, _ => []
  | fuel + 1, t, pos, volume =>
    if t < dur then
      let pos2 := if t ≥ (wp.getD (pos + 1).toNat (0, 0)).1 then pos + 1 else pos
      if pos2 ≥ (wp.length : ℤ) - 1 then []
      else if pos2 < 0 then recalcLoop wp dur fuel (t + 1 / 20) pos2 volume
      else
        let newVolume := interpolateVolume (wp.getD pos2.toNat (0, 0))
          (wp.getD (pos2 + 1).toNat (0, 0)) t
        (if volume ≠ none ∧ volume ≠ some newVolume then [(t, newVolume)] else []) ++
          recalcLoop wp dur fuel (t + 1 / 20) pos2 (some newVolume)
    else []

/-- `MusicControl.recalculate_volume_waypoints` (music_control.py:61-114),
modelled on the already-parsed waypoint list (the Python first reads the
serialised "volume_waypoints" metadata and parses it) and on the trimmed
track duration `cut_end - cut_start`; the result lists the `(trigger time,
volume)` pairs of the volume-change timers the call creates.  (Whether the
timers are started immediately, line 112-114, does not change the list.) -/
def recalculate_volume_waypoints (wp : List (ℚ × ℚ)) (cur dur : ℚ) :
    List (ℚ × ℚ) :=
  if 0 < wp.length then
    let pos := initialPos wp cur
    if pos < (wp.length : ℤ) - 1 then
      recalcLoop wp dur (recalcFuel cur dur) (cur + 1 / 40) pos none
    else []
  else []

/-- The sampling skeleton of `recalcLoop`: the identical traversal,
recording every computed `(sample time, value)` pair instead of only the
changes. -/
def recalcSamples (wp : List (ℚ × ℚ)) (dur : ℚ) : ℕ → ℚ → ℤ → List (ℚ × ℚ)
  | 0, _, _ => []
  | fuel + 1, t, pos =>
    if t < dur then
      let pos2 := if t ≥ (wp.getD (pos + 1).toNat (0, 0)).1 then pos + 1 else pos
      if pos2 ≥ (wp.length : ℤ) - 1 then []
      else if pos2 < 0 then recalcSamples wp dur fuel (t + 1 / 20) pos2
      else
        let newVolume := interpolateVolume (wp.getD pos2.toNat (0, 0))
          (wp.getD (pos2 + 1).toNat (0, 0)) t
        (t, newVolume) :: recalcSamples wp dur fuel (t + 1 / 20) pos2
    else []

/-- The sample sequence that `recalculate_volume_waypoints` traverses. -/
def recalcSamplesTop (wp : List (ℚ × ℚ)) (cur dur : ℚ) : List (ℚ × ℚ) :=
  if 0 < wp.length then
    let pos := initialPos wp cur
    if pos < (wp.length : ℤ) - 1 then
      recalcSamples wp dur (recalcFuel cur dur) (cur + 1 / 40) pos
    else []
  else []

/-- Change points of a sample sequence: one event per sample whose value
differs from the previously computed value; the first computed sample
never yields an event. -/
def changeEvents : Option ℚ → List (ℚ × ℚ) → List (ℚ × ℚ)
  | _, [] => []
  | none, (_, v) :: rest => changeEvents (some v) rest
  | some p, (t, v) :: rest =>
    (if v ≠ p then [(t, v)] else []) ++ changeEvents (some v) rest

/-- The created volume events are exactly the change points of the sample
sequence (with no event for the first computed sample). -/
theorem recalcLoop_eq_changeEvents (wp : List (ℚ × ℚ)) (dur : ℚ) :
    ∀ (fuel : ℕ) (t : ℚ) (pos : ℤ) (volume : Option ℚ),
      recalcLoop wp dur fuel t pos volume =
        changeEvents volume (recalcSamples wp dur fuel t pos) := by
  intro fuel
  induction fuel with
  | zero =>
    intro t pos volume
    unfold recalcLoop recalcSamples
    cases volume <;> rfl
  | succ fuel ih =>
    intro t pos volume
    unfold recalcLoop recalcSamples
    by_cases ht : t < dur
    · rw [if_pos ht, if_pos ht]
      set pos2 := if t ≥ (wp.getD (pos + 1).toNat (0, 0)).1 then pos + 1 else pos with hpos2
      by_cases hend : pos2 ≥ (wp.length : ℤ) - 1
      · rw [if_pos hend, if_pos hend]
        cases volume <;> rfl
      · rw [if_neg hend, if_neg hend]
        by_cases hneg : pos2 < 0
        · rw [if_pos hneg, if_pos hneg]
          exact ih (t + 1 / 20) pos2 volume
        · rw [if_neg hneg, if_neg hneg]
          cases volume with
          | none =>
            simp only [changeEvents]
            rw [ih]
            simp
          | some p =>
            simp only [changeEvents]
            rw [ih]
            set v := interpolateVolume (wp.getD pos2.toNat (0, 0))
              (wp.getD (pos2 + 1).toNat (0, 0)) t with hv
            by_cases hvp : v = p
            · rw [if_neg (not_not_intro hvp),
                if_neg (fun hcon : some p ≠ none ∧ some p ≠ some v =>
                  hcon.2 (by rw [hvp]))]
            · rw [if_pos hvp,
                if_pos (⟨fun h => Option.noConfusion h,
                  fun h => hvp (Option.some.inj h).symm⟩ :
                    some p ≠ none ∧ some p ≠ some v)]
    · rw [if_neg ht, if_neg ht]
      cases volume <;> rfl

/-- Every recorded sample lies on the 50ms lattice anchored at the loop
start, within `[start, duration)`. -/
theorem recalcSamples_mem (wp : List (ℚ × ℚ)) (dur : ℚ) :
    ∀ (fuel : ℕ) (t : ℚ) (pos : ℤ) (e : ℚ × ℚ),
      e ∈ recalcSamples wp dur fuel t pos →
      (∃ k : ℕ, e.1 = t + k * (1 / 20)) ∧ t ≤ e.1 ∧ e.1 < dur := by
  intro fuel
  induction fuel with
  | zero =>
    intro t pos e he
    simp [recalcSamples] at he
  | succ fuel ih =>
    intro t pos e he
    unfold recalcSamples at he
    dsimp only at he
    by_cases ht : t < dur
    case neg =>
      rw [if_neg ht] at he
      exact absurd he (List.not_mem_nil e)
    rw [if_pos ht] at he
    set pos2 := (if t ≥ (wp.getD (pos + 1).toNat (0, 0)).1 then pos + 1 else pos)
      with hp2
    by_cases h1 : pos2 ≥ (wp.length : ℤ) - 1
    · rw [if_pos h1] at he
      exact absurd he (List.not_mem_nil e)
    · rw [if_neg h1] at he
      by_cases h2 : pos2 < 0
      · rw [if_pos h2] at he
        obtain ⟨⟨k, hk⟩, hle, hlt⟩ := ih _ _ e he
        exact ⟨⟨k + 1, by push_cast; linarith⟩, by linarith, hlt⟩
      · rw [if_neg h2] at he
        rcases List.mem_cons.mp he with heq | he2
        · subst heq
          exact ⟨⟨0, by norm_num⟩, le_refl _, ht⟩
        · obtain ⟨⟨k, hk⟩, hle, hlt⟩ := ih _ _ e he2
          exact ⟨⟨k + 1, by push_cast; linarith⟩, by linarith, hlt⟩

/-- `recalculate_volume_waypoints` equals the change points of its sample
sequence. -/
theorem recalculate_eq_changeEvents (wp : List (ℚ × ℚ)) (cur dur : ℚ) :
    recalculate_volume_waypoints wp cur dur =
      changeEvents none (recalcSamplesTop wp cur dur) := by
  unfold recalculate_volume_waypoints recalcSamplesTop
  split
  · dsimp only
    split
    · exact recalcLoop_eq_changeEvents wp dur _ _ _ none
    · rfl
  · rfl

/-- The samples `recalculate_volume_waypoints` traverses start 25ms after
the current position and then step every 50ms, strictly inside
`(current position, duration)`. -/
theorem recalcSamplesTop_mem (wp : List (ℚ × ℚ)) (cur dur : ℚ) (e : ℚ × ℚ)
    (he : e ∈ recalcSamplesTop wp cur dur) :
    (∃ k : ℕ, e.1 = cur + 1 / 40 + k * (1 / 20)) ∧ cur < e.1 ∧ e.1 < dur := by
  unfold recalcSamplesTop at he
  split at he
  · dsimp only at he
    split at he
    · obtain ⟨⟨k, hk⟩, hle, hlt⟩ := recalcSamples_mem wp dur _ _ _ e he
      exact ⟨⟨k, hk⟩, by linarith, hlt⟩
    · exact absurd he (List.not_mem_nil e)
  · exact absurd he (List.not_mem_nil e)

/-- The volume envelope exactly as claim C4 words it: flat at the first
waypoint's level up to the first waypoint, linear interpolation between
straddling waypoints, flat at the last waypoint's level after it, 0.5 with
no waypoints at all. -/
def specEnvelopeLevel : List (ℚ × ℚ) → ℚ → ℚ
  | [], _ => 1 / 2
  | [w], _ => w.2
  | w1 :: w2 :: rest, t =>
    if t ≤ w1.1 then w1.2
    else if t < w2.1 then w1.2 + (t - w1.1) / (w2.1 - w1.1) * (w2.2 - w1.2)
    else specEnvelopeLevel (w2 :: rest) t

/-- First sample of each distinct value run, including the first run. -/
def runStarts : Option ℚ → List (ℚ × ℚ) → List (ℚ × ℚ)
  | _, [] => []
  | prev, (t, v) :: rest =>
    (if prev ≠ some v then [(t, v)] else []) ++ runStarts (some v) rest

/-- The volume-set events exactly as claim C4 describes them: sample the
envelope every 50ms from the current position to the track end and emit
one event at the first sample of each distinct value run (including the
first). -/
def specVolumeEvents (wp : List (ℚ × ℚ)) (cur dur : ℚ) : List (ℚ × ℚ) :=
  runStarts none (((List.range (⌈(dur - cur) * 20⌉.toNat)).map
    (fun k => cur + k * (1 / 20))).map (fun t => (t, specEnvelopeLevel wp t)))

/-- C4 counterexample: on the waypoints `1;0.2|2;0.8` of a 3-second track
at position 0, the description's event list starts with an event for the
first run (at t = 0, level 0.2), but the code emits nothing before the
second sample inside the transition: its first event is at t = 1.075 with
the interpolated level 0.245, and no event for the first computed value,
none before the first waypoint and none at or after the last waypoint is
ever created. -/
theorem c4_counterexample :
    specVolumeEvents [(1, 1 / 5), (2, 4 / 5)] 0 3 ≠
      recalculate_volume_waypoints [(1, 1 / 5), (2, 4 / 5)] 0 3 ∧
    (specVolumeEvents [(1, 1 / 5), (2, 4 / 5)] 0 3).headD (0, 0) = (0, 1 / 5) ∧
    (recalculate_volume_waypoints [(1, 1 / 5), (2, 4 / 5)] 0 3).headD (0, 0) =
      (43 / 40, 49 / 200) := by
  refine ⟨?_, ?_, ?_⟩ <;> with_unfolding_all decide

/-- C4 (amended): the regenerated volume events are exactly the change
points of the 50ms-sampled sequence the loop computes: one event per
sample whose value differs from the previously computed one, hence none
for the first computed sample (and so none for the first value run), none
before the first waypoint (those samples are skipped), and none at or
after the last waypoint (the loop stops there).  Samples lie on the lattice
`current_position + 0.025 + k*0.05` inside the track.  Between straddling
waypoints the computed value is the linear interpolation; at t = 15 between
`10;0.2` and `20;0.8` it is 0.5. -/
theorem c4_volume_events (wp : List (ℚ × ℚ)) (cur dur : ℚ) :
    recalculate_volume_waypoints wp cur dur =
      changeEvents none (recalcSamplesTop wp cur dur) ∧
    (∀ e ∈ recalcSamplesTop wp cur dur,
      (∃ k : ℕ, e.1 = cur + 1 / 40 + k * (1 / 20)) ∧ cur < e.1 ∧ e.1 < dur) ∧
    interpolateVolume (10, 1 / 5) (20, 4 / 5) 15 = 1 / 2 := by
  refine ⟨recalculate_eq_changeEvents wp cur dur,
    fun e he => recalcSamplesTop_mem wp cur dur e he, ?_⟩
  norm_num [interpolateVolume]

/-- C4 witness: the amended statement instantiated on the waypoints
`1;0.2|2;0.8` of a 3-second track at position 0; the first computed sample
sits on the lattice at t = 1.025. -/
theorem c4_volume_events_witness :
    recalculate_volume_waypoints [(1, 1 / 5), (2, 4 / 5)] 0 3 =
      changeEvents none (recalcSamplesTop [(1, 1 / 5), (2, 4 / 5)] 0 3) ∧
    (∃ k : ℕ, ((recalcSamplesTop [(1, 1 / 5), (2, 4 / 5)] 0 3).headD (0, 0)).1 =
      0 + 1 / 40 + k * (1 / 20)) ∧
    interpolateVolume (10, 1 / 5) (20, 4 / 5) 15 = 1 / 2 := by
  have h := c4_volume_events [(1, 1 / 5), (2, 4 / 5)] 0 3
  refine ⟨h.1, ?_, h.2.2⟩
  exact (h.2.1 _ (by with_unfolding_all decide)).1

/-- Actions `MusicControl.song_ends` can trigger on the player and the
playlist. -/
inductive ControlAction : Type
  | emitSongFinished (path : String)
  | removePlaylistHead
  | playerPlayNext
deriving DecidableEq

/-- The identity-relevant part of a `MusicControl` object: the track path
it controls and its object identity. -/
structure MCState where
  path : String
  objId : ℕ
deriving DecidableEq

/-- `MusicControl.song_ends` (music_control.py:187-195): the fired
end-of-track event emits `song_finished` with the track's path, removes
the playlist head, and advances the player.  The body never consults the
player's current track or control track, so the actions are the same
whether or not `mc` is still the current control track (`currentControl`
is the identity of the player's current control track, if any). -/
def songEnds (mc : MCState) (currentControl : Option ℕ) : List ControlAction :=
  [ControlAction.emitSongFinished mc.path, ControlAction.removePlaylistHead,
    ControlAction.playerPlayNext]

/-- The pending timers of a `MusicControl`, by their active flag. -/
structure MCTimers where
  events : List Bool
  volume_change_events : List Bool

/-- `MusicControl.stop` (music_control.py:125-132): every volume-change
timer and every event timer of the track is stopped. -/
def stopMC (m : MCTimers) : MCTimers :=
  { events := m.events.map (fun _ => false),
    volume_change_events := m.volume_change_events.map (fun _ => false) }

/-- C5 counterexample: a stale firing is not a no-op.  With the player's
current control track being object 1, the event owned by object 2 (a
track no longer current) still emits song-finished, removes the playlist
head and advances the player — there is no identity check in
`song_ends`. -/
theorem c5_counterexample :
    (some 1 ≠ (some (MCState.mk "a.mp3" 2).objId : Option ℕ)) ∧
    songEnds (MCState.mk "a.mp3" 2) (some 1) ≠ [] ∧
    ControlAction.emitSongFinished "a.mp3" ∈ songEnds (MCState.mk "a.mp3" 2) (some 1) ∧
    ControlAction.removePlaylistHead ∈ songEnds (MCState.mk "a.mp3" 2) (some 1) ∧
    ControlAction.playerPlayNext ∈ songEnds (MCState.mk "a.mp3" 2) (some 1) := by
  refine ⟨?_, ?_, ?_, ?_, ?_⟩ <;> decide

/-- C5 (amended): `song_ends` performs its three actions unconditionally —
it contains no identity check, so a stale firing would emit song-finished,
remove the playlist head and advance the player just like a live one.
Stale firings are instead prevented by cancellation: stopping a track
(`MusicControl.stop`, called by `Player.play_next` before a new track's
events are created) deactivates every one of its timers. -/
theorem c5_song_ends_unconditional (mc : MCState) (currentControl : Option ℕ)
    (m : MCTimers) :
    songEnds mc currentControl =
      [ControlAction.emitSongFinished mc.path, ControlAction.removePlaylistHead,
        ControlAction.playerPlayNext] ∧
    (stopMC m).events.all (fun a => a = false) = true ∧
    (stopMC m).volume_change_events.all (fun a => a = false) = true := by
  refine ⟨rfl, ?_, ?_⟩ <;> simp [stopMC]

/-! ## Player (src/lyndj/player.py) -/

/-- Actions `Player.is_playing_set` can trigger. -/
inductive PlayerAction : Type
  | playNext
  | startFadeout (duration : ℚ)
  | emitSongFinished (path : String)
  | emitIsPlayingChanged
deriving DecidableEq

/-- The player state read and written by `is_playing_set`
(player.py:111-126): the current track (None when stopped), the wall-clock
start time of the current track, the playlist, the current track's trim
points (`current_duration`, player.py:321-329, is `cut_end - cut_start`
via the metadata of the playlist head) and the configured fade-out
duration (`player/fadeout` preference). -/
structure PlayerState where
  current_track : Option String
  start_time : Option ℚ
  playlist : List String
  cut_start : ℚ
  cut_end : ℚ
  fadeout_pref : ℚ

/-- `Player.current_duration` (player.py:321-329). -/
def currentDuration (st : PlayerState) : ℚ := st.cut_end - st.cut_start

/-- Python `path.startswith(":")`: the first character is a colon. -/
def startsWithColon (p : String) : Bool :=
  match p.toList with
  | c :: _ => c = ':'
  | [] => false

/-- `Player.is_playing_set` (player.py:111-126) at wall-clock time `now`:
starting from a stopped state plays the next song; stopping a playing
state starts a fade-out of the configured duration, then — unless the
playlist head is a sentinel — emits `song_finished` for the playlist head
when more than half of the trimmed duration has elapsed, and clears the
current track and start time; in every case `is_playing_changed` is
emitted last. -/
def is_playing_set (st : PlayerState) (now : ℚ) (new_is_playing : Bool) :
    List PlayerAction × PlayerState :=
  if st.current_track = none ∧ new_is_playing then
    ([PlayerAction.playNext, PlayerAction.emitIsPlayingChanged], st)
  else if st.current_track ≠ none ∧ ¬new_is_playing then
    let head := st.playlist.headD ""
    let finished :=
      if startsWithColon head then []
      else if (now - (st.start_time.getD 0)) / currentDuration st > 1 / 2 then
        [PlayerAction.emitSongFinished head]
      else []
    (PlayerAction.startFadeout st.fadeout_pref :: finished ++
        [PlayerAction.emitIsPlayingChanged],
      { st with current_track := none, start_time := none })
  else ([PlayerAction.emitIsPlayingChanged], st)

/-- C9: `set_playing(false)` on a playing track whose path heads the
playlist (and is not a `:` sentinel) starts a fade-out of the configured
duration first, emits `song_finished` exactly when the elapsed fraction of
the trimmed duration exceeds one half, and transitions the player to the
stopped state (the current track is cleared; the scheduled fade completes
the stop). -/
theorem c9_set_playing_false (st : PlayerState) (now t0 : ℚ) (p : String)
    (htrack : st.current_track = some p)
    (hstart : st.start_time = some t0)
    (hhead : st.playlist.headD "" = p)
    (hcolon : startsWithColon p = false)
    (_hdur : 0 < currentDuration st) :
    (is_playing_set st now false).1 =
      PlayerAction.startFadeout st.fadeout_pref ::
        (if (now - t0) / currentDuration st > 1 / 2 then
          [PlayerAction.emitSongFinished p] else []) ++
        [PlayerAction.emitIsPlayingChanged] ∧
    (is_playing_set st now false).2.current_track = none ∧
    (PlayerAction.emitSongFinished p ∈ (is_playing_set st now false).1 ↔
      (now - t0) / currentDuration st > 1 / 2) := by
  have hne : st.current_track ≠ none := by rw [htrack]; exact Option.some_ne_none p
  have hc1 : ¬(st.current_track = none ∧ (false : Bool) = true) := by
    rintro ⟨h, -⟩
    exact hne h
  have hc2 : st.current_track ≠ none ∧ ¬((false : Bool) = true) := ⟨hne, by simp⟩
  unfold is_playing_set
  rw [if_neg hc1, if_pos hc2]
  dsimp only
  rw [hhead, hstart]
  simp only [Option.getD_some]
  rw [hcolon]
  rw [if_neg (by simp : ¬(false = true))]
  refine ⟨rfl, by trivial, ?_⟩
  by_cases hfrac : (now - t0) / currentDuration st > 1 / 2
  · rw [if_pos hfrac]
    exact ⟨fun _ => hfrac, fun _ => by simp⟩
  · rw [if_neg hfrac]
    constructor
    · intro h
      simp at h
    · intro h
      exact absurd h hfrac

/-- C9 witness: a playing track `"a.mp3"` with trim points 0..10 and
fade-out preference 2 seconds, stopped at 60% elapsed (emits
song-finished) and at 20% elapsed (does not). -/
theorem c9_set_playing_false_witness :
    (is_playing_set (PlayerState.mk (some "a.mp3") (some 0) ["a.mp3"] 0 10 2) 6 false).1 =
      [PlayerAction.startFadeout 2, PlayerAction.emitSongFinished "a.mp3",
        PlayerAction.emitIsPlayingChanged] ∧
    (is_playing_set (PlayerState.mk (some "a.mp3") (some 0) ["a.mp3"] 0 10 2) 2 false).1 =
      [PlayerAction.startFadeout 2, PlayerAction.emitIsPlayingChanged] := by
  constructor
  · have h := (c9_set_playing_false
      (PlayerState.mk (some "a.mp3") (some 0) ["a.mp3"] 0 10 2) 6 0 "a.mp3"
      rfl rfl rfl (by decide) (by norm_num [currentDuration])).1
    rw [h, if_pos (by norm_num [currentDuration])]
    rfl
  · have h := (c9_set_playing_false
      (PlayerState.mk (some "a.mp3") (some 0) ["a.mp3"] 0 10 2) 2 0 "a.mp3"
      rfl rfl rfl (by decide) (by norm_num [currentDuration])).1
    rw [h, if_neg (by norm_num [currentDuration])]
    rfl

/-! ## AutoDJ (src/lyndj/autodj.py) -/

/-- One rotation of the BPM cadence (autodj.py:93):
`cadence[rotate_n:] + cadence[:rotate_n]`. -/
def rotateCadence (cadence : List ℤ) (n : ℕ) : List ℤ :=
  cadence.drop n ++ cadence.take n

/-- The total absolute BPM difference between a rotation of the cadence
and the trailing history BPMs (autodj.py:94-96); `zipWith` matches the
`enumerate(bpm_to_match)` indexing, which never reads past the history
slice because the slice is at most as long as the cadence. -/
def rotationDifference (cadence : List ℤ) (bpmToMatch : List ℚ) (n : ℕ) : ℚ :=
  ((rotateCadence cadence n).zipWith (fun c b => |(c : ℚ) - b|) bpmToMatch).sum

/-- The rotation search of `AutoDJ.suggested_track` (autodj.py:90-99):
try every rotation in order and keep the first one that strictly improves
the best total difference (`best_rotate = -1` and an infinite
`best_rotate_difference` initially, modelled by `none`, so the first
rotation always wins the first comparison and a tie never displaces an
earlier winner). -/
def bestRotation (cadence : List ℤ) (bpmToMatch : List ℚ) : ℤ × Option ℚ :=
  (List.range cadence.length).foldl
    (fun acc n =>
      let d := rotationDifference cadence bpmToMatch n
      if (match acc.2 with | none => true | some b => decide (d < b)) = true then
        ((n : ℤ), some d)
      else acc)
    (-1, none)

/-- The base target BPM (autodj.py:100), before the energy-slider
adjustment of lines 101-102:
`cadence[(len(bpm_to_match) + best_rotate) % len(cadence)]`. -/
def bpmTarget (cadence : List ℤ) (bpmToMatch : List ℚ) : ℤ :=
  cadence.getD (((bpmToMatch.length : ℤ) +
    (bestRotation cadence bpmToMatch).1).emod (cadence.length : ℤ)).toNat 0

/-- C8: for the cadence [100, 200] and the 1-entry trailing history at BPM
195, rotation 0 costs 95 and rotation 1 (the one starting at 200) costs 5,
so the search selects rotation 1 and the next cadence position gives the
base target BPM 100.  The final conjunct shows the first-minimal
tie-break: on the all-tie cadence [100, 100] the first rotation wins. -/
theorem c8_cadence_rotation :
    rotationDifference [100, 200] [195] 0 = 95 ∧
    rotationDifference [100, 200] [195] 1 = 5 ∧
    rotateCadence [100, 200] 1 = [200, 100] ∧
    bestRotation [100, 200] [195] = (1, some 5) ∧
    bpmTarget [100, 200] [195] = 100 ∧
    bestRotation [100, 100] [150] = (0, some 50) := by
  refine ⟨?_, ?_, ?_, ?_, ?_, ?_⟩ <;> with_unfolding_all decide

/-! ## Spectrogram normalisation (src/lyndj/fourier.py)

The claims about `generate_fourier` concern lines 80-88: the global
normalisation of the summed per-bucket magnitudes, the gamma step and the
cast into 8-bit grayscale.  The bucket sums (nonnegative, from summed
absolute FFT magnitudes) are taken as input; the float arithmetic of the
gamma step lives in ℝ. -/

/-- `numpy.max(transformed)` (fourier.py:81) for the nonnegative bucket
sums (0 for an empty array, where numpy would raise instead). -/
def bucketMax (m : List (List ℚ)) : ℚ :=
  (m.map (fun row => row.foldl max 0)).foldl max 0

/-- The global normalisation (fourier.py:82): `transformed /= max_value / 255`. -/
def normaliseBuckets (m : List (List ℚ)) : List (List ℚ) :=
  m.map (fun row => row.map (fun v => v / (bucketMax m / 255)))

/-- The gamma step exactly as written on fourier.py:83:
`numpy.power(255 * (transformed / 255), gamma)`.  The inner
`255 * (x / 255)` is just `x`, so the step raises the already-normalised
0..255 values to the power gamma instead of the intended
`255 * (x/255)^gamma`. -/
noncomputable def gammaStep (x γ : ℝ) : ℝ := (255 * (x / 255)) ^ γ

/-- The `astype(numpy.ubyte)` cast (fourier.py:84) of a nonnegative
float: truncate, then reduce modulo 256 (numpy wraps out-of-range
values instead of clamping). -/
noncomputable def ubyteCast (x : ℝ) : ℤ := ⌊x⌋ % 256

/-- C6: the gamma step overflows the 8-bit range.  Normalising any
spectrogram with a positive maximum (here the single bucket [[1]]) maps
its brightest bucket to exactly 255; the gamma step with the default
gamma 1.5 then produces `255^1.5 ≥ 256`, and casting that to an unsigned
byte wraps (the stored pixel differs from the computed value), contrary
to the claim that every pixel still fits 0..255 without wrapping. -/
theorem c6_gamma_overflows :
    normaliseBuckets [[1]] = [[255]] ∧
    (256 : ℝ) ≤ gammaStep 255 (3 / 2) ∧
    ubyteCast (gammaStep 255 (3 / 2)) ≠ ⌊gammaStep 255 (3 / 2)⌋ := by
  have hg : gammaStep 255 (3 / 2) = (255 : ℝ) ^ ((3 : ℝ) / 2) := by
    unfold gammaStep
    norm_num
  have h255 : (0 : ℝ) ≤ 255 := by norm_num
  have ha0 : (0 : ℝ) ≤ (255 : ℝ) ^ ((3 : ℝ) / 2) := Real.rpow_nonneg h255 _
  have hsq : ((255 : ℝ) ^ ((3 : ℝ) / 2)) ^ (2 : ℕ) = 16581375 := by
    rw [← Real.rpow_natCast ((255 : ℝ) ^ ((3 : ℝ) / 2)) 2, ← Real.rpow_mul h255]
    norm_num
  have hge : (256 : ℝ) ≤ (255 : ℝ) ^ ((3 : ℝ) / 2) := by
    by_contra hlt
    push_neg at hlt
    have h1 : ((255 : ℝ) ^ ((3 : ℝ) / 2)) ^ (2 : ℕ) < 256 ^ (2 : ℕ) := by
      apply pow_lt_pow_left₀ hlt ha0
      norm_num
    rw [hsq] at h1
    norm_num at h1
  refine ⟨by with_unfolding_all decide, by rw [hg]; exact hge, ?_⟩
  rw [hg]
  have hfl : (256 : ℤ) ≤ ⌊(255 : ℝ) ^ ((3 : ℝ) / 2)⌋ := by
    apply Int.le_floor.mpr
    exact_mod_cast hge
  have hmod : ⌊(255 : ℝ) ^ ((3 : ℝ) / 2)⌋ % 256 < 256 :=
    Int.emod_lt_of_pos _ (by norm_num)
  unfold ubyteCast
  omega

end LynDJ
